import Mathlib

/-!
Shallow embedding of the configkit configuration-resolution library.

The embedding follows the Go sources:
  * `config.go` — the generic `Field[T]` descriptor, its `Value()` cascade and
    `ConfigFieldMap` flattening;
  * `example/one` (appended `configkit` part) — the untyped `MetaField`
    descriptor, its `defaultRules`/`Value` rule engine and the stack-based
    `AllMetaFields` walker;
  * `operations.go` — `ApplyValues`;
  * `internal/field-traversal-test/field-traversal.go` — the stack-based and
    recursive reference traversals.

Conventions used throughout:
  * the process environment is a total function `String → String`; `os.Getenv`
    of an unset variable yields `""`, so an environment is just that function;
  * Go panics are modelled as `Except.error` with a representative message,
    ordinary (recoverable) Go `error` returns stay inside the `ok` payload;
  * a Go pointer is `Option` of the pointed-to value (`none` = nil pointer);
  * Go `any` values of the three supported semantic types are the closed
    variant `GoVal`; a Go `any` that may be nil is `Option GoVal`.
-/

namespace Configkit

/-- The process environment as read by `os.Getenv`: unset names read as `""`. -/
abbrev GoEnv := String → String

/-- The zero value of a Go type, as produced by `*new(T)` in `Field.Value`. -/
class GoZero (T : Type) where
  zero : T

instance : GoZero String := ⟨""⟩

instance : GoZero Bool := ⟨false⟩

instance : GoZero Int := ⟨0⟩

/-- A dynamic Go value of one of the three semantic types supported by the
descriptors (`string`, `bool`, `int`). -/
inductive GoVal where
  | vStr : String → GoVal
  | vBool : Bool → GoVal
  | vInt : Int → GoVal
deriving DecidableEq, Repr

instance {e a : Type} [DecidableEq e] [DecidableEq a] : DecidableEq (Except e a)
  | Except.ok x, Except.ok y =>
    if h : x = y then isTrue (by rw [h]) else isFalse (by intro hc; injection hc; contradiction)
  | Except.ok _, Except.error _ => isFalse (by intro hc; cases hc)
  | Except.error _, Except.ok _ => isFalse (by intro hc; cases hc)
  | Except.error x, Except.error y =>
    if h : x = y then isTrue (by rw [h]) else isFalse (by intro hc; injection hc; contradiction)

/-- The check `reflect.Value.IsZero` restricted to the three supported types. -/
def GoVal.isZero : GoVal → Bool
  | .vStr s => s = ""
  | .vBool b => b = false
  | .vInt n => n = 0

/-- Whether two dynamic values have the same Go type (used by the model of
`reflect.Value.Set`, which panics on a type mismatch). -/
def GoVal.sameType : GoVal → GoVal → Bool
  | .vStr _, .vStr _ => true
  | .vBool _, .vBool _ => true
  | .vInt _, .vInt _ => true
  | _, _ => false

/-- Go map indexing `m[k]` over an association-list model of a map whose keys
are unique: the first binding for `k`, if any. -/
def lookupKey {α : Type} : List (String × α) → String → Option α
  | [], _ => none
  | (k₀, v₀) :: rest, k => if k₀ = k then some v₀ else lookupKey rest k

/-- Go map assignment `m[k] = v`: replace the binding for `k` if present,
otherwise add it. -/
def mapInsert {α : Type} : List (String × α) → String → α → List (String × α)
  | [], k, v => [(k, v)]
  | (k₀, v₀) :: rest, k, v =>
    if k₀ = k then (k₀, v) :: rest else (k₀, v₀) :: mapInsert rest k v

/-- The generic descriptor `Field[T]` of `config.go`.

`FlagP` is a pointer, modelled as `Option` of the pointed-to value;
`EnvToValueFunc` is a nilable function value.  The `StringOverrideFunc` and
`CobraSetupFunc` members only feed the external cobra/printing integration
layer and are not part of the resolution model. -/
structure Field (T : Type) where
  flagP : Option T := none
  defaultValue : T
  flagName : String := ""
  mapFieldName : String := ""
  usage : String := ""
  envKey : String := ""
  noEnv : Bool := false
  envToValueFunc : Option (String → T) := none
  metadata : List (String × String) := []

/-- The tail of `Field.Value` after the flag tier: the environment tier and the
default tier.  Mirrors

```
if v := os.Getenv(f.EnvKey); v != "" {
    if f.EnvToValueFunc != nil || !f.NoEnv {
        return f.EnvToValueFunc(v)
    }
}
return f.DefaultValue
```

calling a nil `EnvToValueFunc` is the Go nil-function-call panic. -/
def Field.valueEnvDefault {T : Type} (f : Field T) (env : GoEnv) : Except String T :=
  let v := env f.envKey
  if v ≠ "" then
    if f.envToValueFunc.isSome || !f.noEnv then
      match f.envToValueFunc with
      | some conv => Except.ok (conv v)
      | none => Except.error "runtime error: invalid memory address or nil pointer dereference"
    else Except.ok f.defaultValue
  else Except.ok f.defaultValue

/-- The method `Field.Value` of `config.go`: flag tier (`FlagP` non-nil and pointing at a
non-zero value), then environment tier, then the explicit default. -/
def Field.Value {T : Type} [DecidableEq T] [GoZero T] (f : Field T) (env : GoEnv) :
    Except String T :=
  match f.flagP with
  | some v => if v ≠ GoZero.zero then Except.ok v else f.valueEnvDefault env
  | none => f.valueEnvDefault env

/-- Parse a run of decimal digits left to right; `none` on any non-digit. -/
def parseDigits : List Char → Nat → Option Nat
  | [], acc => some acc
  | c :: rest, acc =>
    if c.isDigit then parseDigits rest (10 * acc + (c.toNat - 48)) else none

/-- Go `strconv.Atoi` with the error discarded, as used by the examples'
`EnvToValueFunc` closures (`v, _ := strconv.Atoi(s); return v`): an optional
sign followed by at least one digit, anything else yielding `0`. -/
def atoiOr0 (s : String) : Int :=
  match s.data with
  | [] => 0
  | '-' :: rest =>
    if rest.isEmpty then 0
    else
      match parseDigits rest 0 with
      | some n => -(n : Int)
      | none => 0
  | l =>
    match parseDigits l 0 with
    | some n => (n : Int)
    | none => 0

/-- An environment with no variables set. -/
def envEmpty : GoEnv := fun _ => ""

/-- An environment in which only `APP_FIELD_TWO` is set, to `"10"`. -/
def envTen : GoEnv := fun k => if k = "APP_FIELD_TWO" then "10" else ""

/-- The `FieldTwo` descriptor of `example/one`: flag pointer freshly allocated
(so it points at the zero value `0`), default `1`, environment key
`APP_FIELD_TWO` with an `Atoi` converter. -/
def fieldTwo : Field Int :=
  { flagP := some 0
    defaultValue := 1
    flagName := "field-two"
    usage := "the second value as a int"
    envKey := "APP_FIELD_TWO"
    envToValueFunc := some atoiOr0 }

/-- An environment in which only `K` is set, to `"10"`. -/
def envK10 : GoEnv := fun k => if k = "K" then "10" else ""

/-! ### Size bookkeeping used by the termination proofs of the walkers -/

theorem sizeOf_list_append {α : Type} [SizeOf α] (l₁ l₂ : List α) :
    sizeOf (l₁ ++ l₂) + 1 = sizeOf l₁ + sizeOf l₂ := by
  induction l₁ with
  | nil => simp; omega
  | cons a l ih =>
    simp only [List.cons_append, List.cons.sizeOf_spec]
    omega

theorem sizeOf_list_reverse {α : Type} [SizeOf α] (l : List α) :
    sizeOf l.reverse = sizeOf l := by
  induction l with
  | nil => rfl
  | cons a l ih =>
    have h := sizeOf_list_append l.reverse [a]
    simp only [List.reverse_cons, List.cons.sizeOf_spec, List.nil.sizeOf_spec] at *
    omega

theorem sizeOf_list_pos {α : Type} [SizeOf α] (l : List α) : 1 ≤ sizeOf l := by
  cases l <;> simp <;> omega

/-! ### The untyped `MetaField` descriptor and its rule engine -/

/-- The plain data members of `MetaField` (example/one, `configkit` part).

`FlagValueP` is an `any` expected to hold a pointer, modelled as `Option` of
the pointed-to dynamic value; `DefaultValue` is a nilable `any`;
`EnvToValueFunc` is a nilable function returning an `any`.  `CobraSetupFunc`
only wires the external cobra collaborator and is outside the resolution
model. -/
structure MetaFieldData where
  fieldName : String := ""
  envKey : String := ""
  defaultValue : Option GoVal := none
  flagValueP : Option GoVal := none
  metadata : List (String × String) := []
  envToValueFunc : Option (String → Option GoVal) := none

/-- A resolution rule: in Go, `func(m MetaField) any`.  The rules in the
sources only read the plain data members of the descriptor (never its
`ValueRules` list), so a rule receives the `MetaFieldData` part; Lean's
positivity checker requires this split of the recursive structure.  The
environment is the rule's ambient `os.Getenv` access. -/
abbrev MetaRule := MetaFieldData → GoEnv → Option GoVal

/-- The untyped descriptor `MetaField` with its optional custom rule chain. -/
structure MetaField where
  data : MetaFieldData
  valueRules : List MetaRule := []

/-- The flag rule of `MetaField.defaultRules`: nil pointer or a pointed-to
zero value is absent, anything else is returned. -/
def flagRule : MetaRule := fun m _ =>
  match m.flagValueP with
  | none => none
  | some v => if v.isZero then none else some v

/-- The environment rule of `MetaField.defaultRules`: no key or an unset/empty
variable is absent; with no converter the fallback closure returns the raw
string. -/
def envRule : MetaRule := fun m env =>
  if m.envKey = "" then none
  else
    let value := env m.envKey
    if value = "" then none
    else
      match m.envToValueFunc with
      | some conv => conv value
      | none => some (GoVal.vStr value)

/-- The final rule of `MetaField.defaultRules`: the default value,
unconditionally. -/
def defaultValueRule : MetaRule := fun m _ => m.defaultValue

/-- The list `MetaField.defaultRules`: flag, then environment, then default. -/
def MetaField.defaultRules : List MetaRule := [flagRule, envRule, defaultValueRule]

/-- The rule loop of `MetaField.Value`: evaluate rules in order and return the
first non-nil result; nil if every rule returns nil. -/
def runRules (env : GoEnv) (d : MetaFieldData) : List MetaRule → Option GoVal
  | [] => none
  | rule :: rest =>
    match rule d env with
    | some result => some result
    | none => runRules env d rest

/-- The method `MetaField.Value`: use the custom rule chain when non-empty, otherwise the
default three-tier rules. -/
def MetaField.Value (m : MetaField) (env : GoEnv) : Option GoVal :=
  runRules env m.data (if m.valueRules.isEmpty then MetaField.defaultRules else m.valueRules)

/-! ### The `AllMetaFields` stack walker -/

/-- A node of a metadata structure as seen by `AllMetaFields` through
reflection: a `MetaField` member, a nested structure, a pointer, or any other
(skipped) member.  `prim` also stands for inaccessible (unexported) members,
which the walker skips the same way. -/
inductive MNode where
  | meta : MetaField → MNode
  | prim : MNode
  | ptr : Option MNode → MNode
  | strct : List MNode → MNode

/-- One `reflect` pointer dereference: `if Kind == Pointer then Elem`.
A nil pointer dereferences to the invalid value (`none`). -/
def MNode.deref1 : MNode → Option MNode
  | .ptr p => p
  | n => some n

/-- Whether a node has Go `Kind() == reflect.Struct`.  A `MetaField` value is
itself a Go struct. -/
def MNode.structKind : MNode → Bool
  | .meta _ => true
  | .strct _ => true
  | _ => false

/-- The directly-visible fields of a struct node.  A `MetaField`'s own members
(strings, maps, function values, an interface and a slice) contain no nested
`MetaField` values, so iterating them discovers nothing. -/
def MNode.body : MNode → List MNode
  | .strct fs => fs
  | _ => []

theorem MNode.mderef1_size : ∀ {n d : MNode}, MNode.deref1 n = some d → sizeOf d ≤ sizeOf n := by
  intro n d h
  cases n with
  | ptr p =>
    cases p with
    | none => simp [MNode.deref1] at h
    | some x =>
      simp [MNode.deref1] at h
      subst h
      simp
      omega
  | meta m => simp [MNode.deref1] at h; subst h; omega
  | prim => simp [MNode.deref1] at h; subst h; omega
  | strct fs => simp [MNode.deref1] at h; subst h; omega

theorem MNode.mbody_size_le (n : MNode) : sizeOf (MNode.body n) ≤ sizeOf n := by
  cases n <;> simp [MNode.body] <;> omega

/-- One pass of the inner field loop of `AllMetaFields` over a popped struct's
fields: dereference each field, skip non-structs and inaccessible fields,
collect `MetaField` values, queue other structs.  Returns the collected
fields and the queued structs, each in field order. -/
def scanMeta : List MNode → List MetaField × List MNode
  | [] => ([], [])
  | node :: rest =>
    let r := scanMeta rest
    match MNode.deref1 node with
    | none => r
    | some d =>
      match d with
      | .meta m => (m :: r.1, r.2)
      | .strct fs => (r.1, MNode.strct fs :: r.2)
      | _ => r

theorem scanMeta_push_size : ∀ l : List MNode, sizeOf (scanMeta l).2 ≤ sizeOf l := by
  intro l
  induction l with
  | nil => simp [scanMeta]
  | cons node rest ih =>
    simp only [scanMeta]
    split
    · simp only [List.cons.sizeOf_spec]
      omega
    · next d heq =>
      have hd := MNode.mderef1_size heq
      split <;> simp only [List.cons.sizeOf_spec] <;> simp_all <;> omega

/-- The worklist loop of `AllMetaFields`.  Go appends queued structs at the
end of the slice and pops from the end; the embedding keeps the stack with its
top at the head, so pushing appends the reversed field-order queue at the
head. -/
def allMetaLoop : List MNode → List MetaField → List MetaField
  | [], results => results
  | val :: stack, results =>
    allMetaLoop ((scanMeta (MNode.body val)).2.reverse ++ stack)
      (results ++ (scanMeta (MNode.body val)).1)
termination_by stack _ => sizeOf stack
decreasing_by
  have h₁ := scanMeta_push_size (MNode.body val)
  have h₂ := MNode.mbody_size_le val
  have h₃ := sizeOf_list_append ((scanMeta (MNode.body val)).2.reverse) stack
  have h₄ := sizeOf_list_reverse ((scanMeta (MNode.body val)).2)
  simp only [List.cons.sizeOf_spec]
  omega

/-- The walker `AllMetaFields` of example/one's `configkit` part: dereference the root,
panic if it is not a struct, then run the explicit-stack traversal. -/
def AllMetaFields (v : MNode) : Except String (List MetaField) :=
  match MNode.deref1 v with
  | none => Except.error "ConfigKit AllMetaFields: input is not a struct"
  | some val =>
    if MNode.structKind val then Except.ok (allMetaLoop [val] [])
    else Except.error "ConfigKit AllMetaFields: input is not a struct"

/-! ### `ApplyValues` of operations.go -/

/-- The `config` argument of `ApplyValues`: whether the caller passed a
pointer, and the contents of the destination struct it refers to (the
caller's own copy when not a pointer). -/
structure GoArg where
  isPointer : Bool
  dest : List (String × GoVal)

/-- The write `configVal.FieldByName(name).Set(reflect.ValueOf(v))`: missing field,
nil value and type mismatch are all reflect panics. -/
def setDestField (d : List (String × GoVal)) (name : String) (v? : Option GoVal) :
    Except String (List (String × GoVal)) :=
  match lookupKey d name with
  | none => Except.error "reflect: call of reflect.Value.Set on zero Value"
  | some old =>
    match v? with
    | none => Except.error "reflect: Set using zero Value argument"
    | some v =>
      if old.sameType v then
        Except.ok (d.map fun p => if p.1 = name then (name, v) else p)
      else Except.error "reflect.Set: value is not assignable to destination field type"

/-- The write loop of `ApplyValues` over the discovered descriptors. -/
def applyLoop (env : GoEnv) : List MetaField → List (String × GoVal) →
    Except String (List (String × GoVal))
  | [], d => Except.ok d
  | m :: rest, d =>
    match setDestField d m.data.fieldName (m.Value env) with
    | Except.error e => Except.error e
    | Except.ok d₂ => applyLoop env rest d₂

/-- The operation `ApplyValues(config, metaConfig)`: a non-pointer destination returns the
recoverable error `config is not a pointer` before anything is touched;
otherwise every discovered descriptor's resolved value is written into the
destination field named by its `FieldName`, and the function returns nil. -/
def ApplyValues (env : GoEnv) (config : GoArg) (metaConfig : MNode) :
    Except String (Option String × List (String × GoVal)) :=
  if config.isPointer = false then
    Except.ok (some "config is not a pointer", config.dest)
  else
    match AllMetaFields metaConfig with
    | Except.error e => Except.error e
    | Except.ok metaFields =>
      match applyLoop env metaFields config.dest with
      | Except.error e => Except.error e
      | Except.ok d => Except.ok (none, d)

/-! ### `ConfigFieldMap` of config.go -/

/-- A node of a configuration structure as seen by `ConfigFieldMap` through
reflection: a `Field` of one of the three instantiations, a nested structure
with named fields, a pointer, or any other (skipped) member.  `prim` also
stands for inaccessible (unexported) members, which the flattening skips. -/
inductive CNode where
  | fStr : Field String → CNode
  | fBool : Field Bool → CNode
  | fInt : Field Int → CNode
  | prim : CNode
  | ptr : Option CNode → CNode
  | strct : List (String × CNode) → CNode

/-- One `reflect` pointer dereference (`if Kind == Pointer then Elem`);
a nil pointer dereferences to the invalid value. -/
def CNode.deref1 : CNode → Option CNode
  | .ptr p => p
  | n => some n

/-- Go `Kind() == reflect.Struct`: a `Field[T]` value is itself a struct. -/
def CNode.structKind : CNode → Bool
  | .fStr _ => true
  | .fBool _ => true
  | .fInt _ => true
  | .strct _ => true
  | _ => false

/-- The directly-visible named fields of a struct node.  A `Field[T]`'s own
members (pointer to a primitive, strings, a bool, functions, a map) contain
no descriptor values, so iterating them discovers nothing. -/
def CNode.body : CNode → List (String × CNode)
  | .strct fs => fs
  | _ => []

theorem CNode.cderef1_size : ∀ {n d : CNode}, CNode.deref1 n = some d → sizeOf d ≤ sizeOf n := by
  intro n d h
  cases n with
  | ptr p =>
    cases p with
    | none => simp [CNode.deref1] at h
    | some x =>
      simp [CNode.deref1] at h
      subst h
      simp
      omega
  | fStr f => simp [CNode.deref1] at h; subst h; omega
  | fBool f => simp [CNode.deref1] at h; subst h; omega
  | fInt f => simp [CNode.deref1] at h; subst h; omega
  | prim => simp [CNode.deref1] at h; subst h; omega
  | strct fs => simp [CNode.deref1] at h; subst h; omega

theorem CNode.struct_body_size : ∀ {n : CNode}, CNode.structKind n = true →
    sizeOf (CNode.body n) < sizeOf n := by
  intro n h
  cases n with
  | fStr f => cases f; simp [CNode.body]
  | fBool f => cases f; simp [CNode.body]
  | fInt f => cases f; simp [CNode.body]
  | strct fs => simp [CNode.body]
  | prim => simp [CNode.structKind] at h
  | ptr p => simp [CNode.structKind] at h

/-- The panic message of `ConfigFieldMap` for a non-struct input. -/
def notStructMsg : String := "ConfigKit Field: input is not a struct"

/-- The panic message of `ConfigFieldMap` for a duplicate map key. -/
def dupKeyMsg : String :=
  "ConfigKit Field: map key already exists. use MapFieldName to override the default value"

/-- The merge loop of `ConfigFieldMap`'s nested-struct branch:

```
for key, value := range ConfigFieldMap(subVal.Interface()) {
    if _, ok := results[name]; ok { panic(...) }
    results[key] = value
}
```

Note that the duplicate check consults `results[name]` where `name` still
holds its initial value `""` (the default branch never assigns it), not
`results[key]` — exactly as the source does. -/
def mergeNested (results : List (String × GoVal)) :
    List (String × GoVal) → Except String (List (String × GoVal))
  | [] => Except.ok results
  | (k, v) :: rest =>
    if (lookupKey results "").isSome then Except.error dupKeyMsg
    else mergeNested (mapInsert results k v) rest

mutual

/-- The flattening `ConfigFieldMap` of config.go: dereference the root, panic if it is not a
struct, then fold the field loop over its directly-visible fields with an
empty result map. -/
def ConfigFieldMap (env : GoEnv) (v : CNode) : Except String (List (String × GoVal)) :=
  match hval : CNode.deref1 v with
  | none => Except.error notStructMsg
  | some val =>
    if _hs : CNode.structKind val = true then cfmFields env (CNode.body val) []
    else Except.error notStructMsg
termination_by sizeOf v
decreasing_by
  have h₁ := CNode.cderef1_size hval
  have h₂ := CNode.struct_body_size _hs
  omega

/-- The field loop of `ConfigFieldMap`: descriptor fields are keyed by
`MapFieldName`, falling back to the structural field name when that is empty,
with a duplicate-key panic before insertion; other fields are dereferenced
and, when structs, flattened recursively and merged via `mergeNested`. -/
def cfmFields (env : GoEnv) (fields : List (String × CNode))
    (results : List (String × GoVal)) : Except String (List (String × GoVal)) :=
  match fields with
  | [] => Except.ok results
  | (fname, node) :: rest =>
    match node with
    | CNode.fStr f =>
      match f.Value env with
      | Except.error e => Except.error e
      | Except.ok value =>
        let name := if f.mapFieldName = "" then fname else f.mapFieldName
        if (lookupKey results name).isSome then Except.error dupKeyMsg
        else cfmFields env rest (mapInsert results name (GoVal.vStr value))
    | CNode.fBool f =>
      match f.Value env with
      | Except.error e => Except.error e
      | Except.ok value =>
        let name := if f.mapFieldName = "" then fname else f.mapFieldName
        if (lookupKey results name).isSome then Except.error dupKeyMsg
        else cfmFields env rest (mapInsert results name (GoVal.vBool value))
    | CNode.fInt f =>
      match f.Value env with
      | Except.error e => Except.error e
      | Except.ok value =>
        let name := if f.mapFieldName = "" then fname else f.mapFieldName
        if (lookupKey results name).isSome then Except.error dupKeyMsg
        else cfmFields env rest (mapInsert results name (GoVal.vInt value))
    | other =>
      match hsub : CNode.deref1 other with
      | none => cfmFields env rest results
      | some sub =>
        if _hs : CNode.structKind sub = true then
          match ConfigFieldMap env sub with
          | Except.error e => Except.error e
          | Except.ok msub =>
            match mergeNested results msub with
            | Except.error e => Except.error e
            | Except.ok results₂ => cfmFields env rest results₂
        else cfmFields env rest results
termination_by sizeOf fields
decreasing_by
  all_goals simp only [List.cons.sizeOf_spec, Prod.mk.sizeOf_spec]
  all_goals first
  | (have h₁ := CNode.cderef1_size hsub
     omega)
  | omega

end

/-- The key every discovered descriptor contributes under the flattening: its
`MapFieldName` when non-empty, else the structural field name that held it. -/
def descriptorKey (fname mapFieldName : String) : String :=
  if mapFieldName = "" then fname else mapFieldName

mutual

/-- The keys of the descriptors discovered by `ConfigFieldMap` under a root
value, in traversal order. -/
def discoveredKeys (v : CNode) : List String :=
  match hval : CNode.deref1 v with
  | none => []
  | some val =>
    if _hs : CNode.structKind val = true then keysOfFields (CNode.body val)
    else []
termination_by sizeOf v
decreasing_by
  have h₁ := CNode.cderef1_size hval
  have h₂ := CNode.struct_body_size _hs
  omega

/-- The keys contributed by a field list: each descriptor's `descriptorKey`,
and for nested structures the keys discovered inside them. -/
def keysOfFields : List (String × CNode) → List String
  | [] => []
  | (fname, node) :: rest =>
    (match node with
     | CNode.fStr f => [descriptorKey fname f.mapFieldName]
     | CNode.fBool f => [descriptorKey fname f.mapFieldName]
     | CNode.fInt f => [descriptorKey fname f.mapFieldName]
     | other =>
       match hsub : CNode.deref1 other with
       | none => []
       | some sub =>
         if _hs : CNode.structKind sub = true then discoveredKeys sub else [])
    ++ keysOfFields rest
termination_by fields => sizeOf fields
decreasing_by
  all_goals simp only [List.cons.sizeOf_spec, Prod.mk.sizeOf_spec]
  all_goals first
  | (have h₁ := CNode.cderef1_size hsub
     omega)
  | omega

end

/-- A top-level descriptor with display name `X`. -/
def dupTop : Field String := { defaultValue := "top", mapFieldName := "X" }

/-- A nested descriptor with the same display name `X`. -/
def dupNested : Field String := { defaultValue := "nested", mapFieldName := "X" }

/-- A structure holding two descriptors that compute the same map key `X`,
one at the top level and one inside a nested substructure. -/
def dupExample : CNode :=
  CNode.strct [("A", CNode.fStr dupTop), ("Sub", CNode.strct [("B", CNode.fStr dupNested)])]

/-- A one-descriptor structure whose descriptor has no display name. -/
def singleExample : CNode :=
  CNode.strct [("A", CNode.fStr { defaultValue := "x" })]

/-! ### The reference traversals of internal/field-traversal-test -/

/-- The plain `Field[T]` of the traversal test: a name and a value.  The three
generic instantiations are collapsed into one record over `GoVal`. -/
structure TField where
  name : String
  value : GoVal
deriving DecidableEq, Repr

/-- A node of a test-configuration structure as seen through reflection by the
two traversals: a descriptor field, a nested structure, a pointer, or any
other (skipped) member. -/
inductive TNode where
  | fld : TField → TNode
  | prim : TNode
  | ptr : Option TNode → TNode
  | strct : List TNode → TNode

/-- One `reflect` pointer dereference. -/
def TNode.deref1 : TNode → Option TNode
  | .ptr p => p
  | n => some n

/-- Go `Kind() == reflect.Struct`: a `Field[T]` value is itself a struct. -/
def TNode.structKind : TNode → Bool
  | .fld _ => true
  | .strct _ => true
  | _ => false

/-- The directly-visible fields of a struct node; a `Field[T]`'s own members
(`Name string`, `Value T`) are non-descriptor primitives. -/
def TNode.body : TNode → List TNode
  | .strct fs => fs
  | _ => []

theorem TNode.tderef1_size : ∀ {n d : TNode}, TNode.deref1 n = some d → sizeOf d ≤ sizeOf n := by
  intro n d h
  cases n with
  | ptr p =>
    cases p with
    | none => simp [TNode.deref1] at h
    | some x =>
      simp [TNode.deref1] at h
      subst h
      simp
      omega
  | fld f => simp [TNode.deref1] at h; subst h; omega
  | prim => simp [TNode.deref1] at h; subst h; omega
  | strct fs => simp [TNode.deref1] at h; subst h; omega

theorem TNode.tbody_size_le (n : TNode) : sizeOf (TNode.body n) ≤ sizeOf n := by
  cases n <;> simp [TNode.body] <;> omega

/-- The shared default-branch logic of both traversals: dereference the field
and keep it only when it is a struct (to be pushed or recursed into). -/
def TNode.derefStruct : TNode → Option TNode := fun n =>
  match TNode.deref1 n with
  | none => none
  | some d => if TNode.structKind d then some d else none

theorem TNode.derefStruct_size : ∀ {n d : TNode}, TNode.derefStruct n = some d →
    sizeOf d ≤ sizeOf n := by
  intro n d h
  unfold TNode.derefStruct at h
  cases hd : TNode.deref1 n with
  | none => rw [hd] at h; exact absurd h (by simp)
  | some x =>
    rw [hd] at h
    have := TNode.tderef1_size hd
    by_cases hs : TNode.structKind x = true
    · simp [hs] at h
      subst h
      exact this
    · simp [hs] at h

/-- One pass of the inner field loop of `getConfigFieldsStack` over a popped
struct: collect descriptor fields, queue dereferenced sub-structs, skip the
rest; both result lists are in field order. -/
def scanT : List TNode → List TField × List TNode
  | [] => ([], [])
  | node :: rest =>
    let r := scanT rest
    match node with
    | .fld f => (f :: r.1, r.2)
    | other =>
      match TNode.derefStruct other with
      | some sub => (r.1, sub :: r.2)
      | none => r

theorem scanT_push_size : ∀ l : List TNode, sizeOf (scanT l).2 ≤ sizeOf l := by
  intro l
  induction l with
  | nil => simp [scanT]
  | cons node rest ih =>
    simp only [scanT]
    split
    · simp only [List.cons.sizeOf_spec]
      omega
    · split
      · next heq =>
        have hd := TNode.derefStruct_size heq
        simp only [List.cons.sizeOf_spec]
        omega
      · simp only [List.cons.sizeOf_spec]
        omega

/-- The worklist loop of `getConfigFieldsStack`.  Go appends queued structs at
the end of the slice and pops from the end; the embedding keeps the stack top
at the head, so pushing prepends the reversed field-order queue. -/
def stackLoopT : List TNode → List TField → List TField
  | [], acc => acc
  | val :: stack, acc =>
    stackLoopT ((scanT (TNode.body val)).2.reverse ++ stack) (acc ++ (scanT (TNode.body val)).1)
termination_by stack _ => sizeOf stack
decreasing_by
  have h₁ := scanT_push_size (TNode.body val)
  have h₂ := TNode.tbody_size_le val
  have h₃ := sizeOf_list_append ((scanT (TNode.body val)).2.reverse) stack
  have h₄ := sizeOf_list_reverse ((scanT (TNode.body val)).2)
  simp only [List.cons.sizeOf_spec]
  omega

/-- The traversal `getConfigFieldsStack`: dereference the root, panic when it is not a
struct, then run the explicit-stack traversal. -/
def getConfigFieldsStack (v : TNode) : Except String (List TField) :=
  match TNode.deref1 v with
  | none => Except.error notStructMsg
  | some val =>
    if TNode.structKind val then Except.ok (stackLoopT [val] [])
    else Except.error notStructMsg

/-- The field loop of `getConfigFieldsRecursive` over a struct body: collect
descriptor fields in order and recurse into dereferenced sub-structs inline.
The Go recursion passes an already-dereferenced struct, whose wrapper check
always succeeds, so the embedding recurses directly on its body. -/
def recFieldsT : List TNode → List TField
  | [] => []
  | node :: rest =>
    (match node with
     | .fld f => [f]
     | other =>
       match hsub : TNode.derefStruct other with
       | some sub => recFieldsT (TNode.body sub)
       | none => []) ++ recFieldsT rest
termination_by l => sizeOf l
decreasing_by
  all_goals simp only [List.cons.sizeOf_spec]
  all_goals first
  | (have h₁ := TNode.derefStruct_size hsub
     have h₂ := TNode.tbody_size_le sub
     have h₃ := sizeOf_list_pos (TNode.body sub)
     omega)
  | omega

/-- The traversal `getConfigFieldsRecursive`: dereference the root, panic when it is not a
struct, then collect depth-first by recursion. -/
def getConfigFieldsRecursive (v : TNode) : Except String (List TField) :=
  match TNode.deref1 v with
  | none => Except.error notStructMsg
  | some val =>
    if TNode.structKind val then Except.ok (recFieldsT (TNode.body val))
    else Except.error notStructMsg

/-- The nine-descriptor test structure of the traversal test's `main`: a root
with three descriptors and two substructures of three descriptors each, plus
non-descriptor `Name` members. -/
def testConfig9 : TNode :=
  TNode.strct
    [ TNode.prim
    , TNode.fld { name := "field-one-1-base-config", value := GoVal.vStr "some value 1" }
    , TNode.fld { name := "field-two-2-base-config", value := GoVal.vBool true }
    , TNode.fld { name := "field-three-3-base-config", value := GoVal.vInt 32 }
    , TNode.strct
        [ TNode.prim
        , TNode.fld { name := "field-four-4-config-a", value := GoVal.vStr "some other value for field 4" }
        , TNode.fld { name := "field-five-5-config-a", value := GoVal.vBool false }
        , TNode.fld { name := "field-six-6-config-a", value := GoVal.vInt 32089 }
        ]
    , TNode.strct
        [ TNode.prim
        , TNode.fld { name := "field-seven-7-config-b", value := GoVal.vStr "Some 7th value" }
        , TNode.fld { name := "field-eight-8-config-b", value := GoVal.vBool true }
        , TNode.fld { name := "field-nine-9-config-b", value := GoVal.vInt 1 }
        ]
    ]

/-- A destination structure like example `three`'s `Config`. -/
def destExample : List (String × GoVal) :=
  [("FieldOne", GoVal.vStr ""), ("FieldTwo", GoVal.vInt 0)]

/-- An argument for `ApplyValues` that is not a pointer. -/
def argNonPtr : GoArg := { isPointer := false, dest := destExample }

/-- An argument for `ApplyValues` that is a pointer. -/
def argPtr : GoArg := { isPointer := true, dest := destExample }

/-- A metadata structure with no descriptors. -/
def metaEmptyStruct : MNode := MNode.strct []

/-- A `MetaField` whose first custom rule yields the semantic zero `false`
and whose second yields `7`: exercises the explicit absence sentinel of the
rule chain. -/
def mZero : MetaField :=
  { data := {}
    valueRules := [fun _ _ => some (GoVal.vBool false), fun _ _ => some (GoVal.vInt 7)] }

/-- A descriptor with `NoEnv` set and an environment converter configured:
the configuration exercising the `suppress_environment` flag. -/
def fieldNoEnv : Field Int :=
  { flagP := none
    defaultValue := 1
    envKey := "K"
    noEnv := true
    envToValueFunc := some atoiOr0 }

/-- A descriptor with an environment key configured but no converter
function. -/
def fieldNoConv : Field String := { defaultValue := "d", envKey := "K" }

/-! ## Theorems -/

theorem runRules_findSome (env : GoEnv) (d : MetaFieldData) :
    ∀ rules : List MetaRule, runRules env d rules = rules.findSome? (fun r => r d env) := by
  intro rules
  induction rules with
  | nil => rfl
  | cons r rest ih =>
    simp only [runRules, List.findSome?_cons]
    cases hr : r d env with
    | none => simpa using ih
    | some w => simp

/-- C1: with the default three-tier cascade, a non-nil external reference to a
non-zero value wins outright; an absent or zero external value with a
non-empty environment variable yields the converted environment value; and
with the environment also empty the default is returned.  Stated for both the
generic `Field` cascade and the `MetaField` default rules. -/
theorem C1_default_cascade_precedence :
    (∀ (T : Type) [DecidableEq T] [GoZero T] (f : Field T) (env : GoEnv) (v : T),
        f.flagP = some v → v ≠ GoZero.zero → f.Value env = Except.ok v)
  ∧ (∀ (T : Type) [DecidableEq T] [GoZero T] (f : Field T) (env : GoEnv) (g : String → T),
        (f.flagP = none ∨ f.flagP = some GoZero.zero) → f.envToValueFunc = some g →
        env f.envKey ≠ "" → f.Value env = Except.ok (g (env f.envKey)))
  ∧ (∀ (T : Type) [DecidableEq T] [GoZero T] (f : Field T) (env : GoEnv),
        (f.flagP = none ∨ f.flagP = some GoZero.zero) → env f.envKey = "" →
        f.Value env = Except.ok f.defaultValue)
  ∧ (∀ (m : MetaField) (env : GoEnv) (w : GoVal),
        m.valueRules = [] → m.data.flagValueP = some w → w.isZero = false →
        m.Value env = some w)
  ∧ (∀ (m : MetaField) (env : GoEnv) (g : String → Option GoVal) (w : GoVal),
        m.valueRules = [] →
        (m.data.flagValueP = none ∨ ∃ z, m.data.flagValueP = some z ∧ z.isZero = true) →
        m.data.envKey ≠ "" → env m.data.envKey ≠ "" →
        m.data.envToValueFunc = some g → g (env m.data.envKey) = some w →
        m.Value env = some w)
  ∧ (∀ (m : MetaField) (env : GoEnv),
        m.valueRules = [] →
        (m.data.flagValueP = none ∨ ∃ z, m.data.flagValueP = some z ∧ z.isZero = true) →
        (m.data.envKey = "" ∨ env m.data.envKey = "") →
        m.Value env = m.data.defaultValue) := by
  refine ⟨?_, ?_, ?_, ?_, ?_, ?_⟩
  · intro T _ _ f env v hflag hne
    simp [Field.Value, hflag, hne]
  · intro T _ _ f env g hflag hconv henv
    rcases hflag with h | h <;>
      simp [Field.Value, Field.valueEnvDefault, h, hconv, henv]
  · intro T _ _ f env hflag henv
    rcases hflag with h | h <;>
      simp [Field.Value, Field.valueEnvDefault, h, henv]
  · intro m env w hrules hflag hzero
    simp [MetaField.Value, hrules, runRules, MetaField.defaultRules, flagRule, hflag, hzero]
  · intro m env g w hrules hflag hkey henv hconv hres
    rcases hflag with h | ⟨z, hz, hzero⟩
    · simp [MetaField.Value, hrules, runRules, MetaField.defaultRules, flagRule, envRule,
        h, hkey, henv, hconv, hres]
    · simp [MetaField.Value, hrules, runRules, MetaField.defaultRules, flagRule, envRule,
        hz, hzero, hkey, henv, hconv, hres]
  · intro m env hrules hflag hkey
    have henvr : envRule m.data env = none := by
      rcases hkey with h | h <;> simp [envRule, h]
    rcases hflag with h | ⟨z, hz, hzero⟩
    · cases hd : m.data.defaultValue <;>
        simp [MetaField.Value, hrules, runRules, MetaField.defaultRules, flagRule,
          defaultValueRule, h, henvr, hd]
    · cases hd : m.data.defaultValue <;>
        simp [MetaField.Value, hrules, runRules, MetaField.defaultRules, flagRule,
          defaultValueRule, hz, hzero, henvr, hd]

theorem C1_witness : Field.Value fieldTwo envTen = Except.ok 10 := by
  have h := C1_default_cascade_precedence.2.1 Int fieldTwo envTen atoiOr0
    (Or.inr rfl) rfl (by decide)
  rw [h]
  decide

/-- C3 (counter-evidence): a descriptor with `suppress_environment` set but an
environment converter configured does NOT skip the environment tier: with the
variable set to `"10"` and default `1`, `Value()` returns the converted
environment value `10` instead of the default.  The guard
`f.EnvToValueFunc != nil || !f.NoEnv` consults `NoEnv` only when the converter
is nil, contradicting the field documentation. -/
theorem C3_noEnv_not_skipped :
    fieldNoEnv.noEnv = true ∧ fieldNoEnv.defaultValue = 1 ∧
    envK10 fieldNoEnv.envKey = "10" ∧
    Field.Value fieldNoEnv envK10 = Except.ok 10 := by
  refine ⟨rfl, rfl, rfl, ?_⟩
  decide

/-- C4: with the external tier absent, the environment tier not suppressed,
the variable set and non-empty, and no converter configured, `Value()` hits
the nil-function-call panic (modelled as the error result) rather than
returning the raw string or the default. -/
theorem C4_missing_converter_fatal :
    ∀ (T : Type) [DecidableEq T] [GoZero T] (f : Field T) (env : GoEnv),
    (f.flagP = none ∨ f.flagP = some GoZero.zero) → f.noEnv = false →
    env f.envKey ≠ "" → f.envToValueFunc = none →
    f.Value env = Except.error "runtime error: invalid memory address or nil pointer dereference" := by
  intro T _ _ f env hflag hnoenv henv hconv
  rcases hflag with h | h <;>
    simp [Field.Value, Field.valueEnvDefault, h, hnoenv, henv, hconv]

theorem C4_witness :
    Field.Value fieldNoConv envK10 =
      Except.error "runtime error: invalid memory address or nil pointer dereference" := by
  exact C4_missing_converter_fatal String fieldNoConv envK10 (Or.inl rfl) rfl (by decide) rfl

/-- C6: a non-pointer destination makes `ApplyValues` return the recoverable
`config is not a pointer` error with the destination untouched. -/
theorem C6_not_pointer_error :
    ∀ (env : GoEnv) (config : GoArg) (metaConfig : MNode), config.isPointer = false →
    ApplyValues env config metaConfig =
      Except.ok (some "config is not a pointer", config.dest) := by
  intro env config metaConfig hp
  simp [ApplyValues, hp]

theorem C6_witness :
    ApplyValues envEmpty argNonPtr metaEmptyStruct =
      Except.ok (some "config is not a pointer", destExample) := by
  exact C6_not_pointer_error envEmpty argNonPtr metaEmptyStruct rfl

/-- C7: a non-empty custom rule chain is evaluated in order and resolution
returns the first non-nil rule result (so a semantic zero such as `false` is
returned as soon as a rule produces it), and nil when every rule returns
nil — exactly `List.findSome?` over the chain. -/
theorem C7_custom_rule_chain :
    ∀ (m : MetaField) (env : GoEnv), m.valueRules ≠ [] →
    m.Value env = m.valueRules.findSome? (fun r => r m.data env) := by
  intro m env h
  have hne : m.valueRules.isEmpty = false := by
    cases hr : m.valueRules with
    | nil => exact absurd hr h
    | cons a l => rfl
  rw [MetaField.Value, hne]
  simp only [Bool.false_eq_true, if_false]
  exact runRules_findSome env m.data m.valueRules

theorem C7_witness :
    MetaField.Value mZero envEmpty = some (GoVal.vBool false) := by
  rw [C7_custom_rule_chain mZero envEmpty (by simp [mZero])]
  rfl

/-- C9: resolution reads the environment passed at call time: the same
unmodified descriptor resolves to the default under an environment where its
variable is unset, and to the converted value under an environment where the
variable is set and non-empty. -/
theorem C9_live_environment :
    ∀ (T : Type) [DecidableEq T] [GoZero T] (f : Field T) (g : String → T)
      (env₁ env₂ : GoEnv),
    (f.flagP = none ∨ f.flagP = some GoZero.zero) → f.envToValueFunc = some g →
    env₁ f.envKey = "" → env₂ f.envKey ≠ "" →
    f.Value env₁ = Except.ok f.defaultValue ∧ f.Value env₂ = Except.ok (g (env₂ f.envKey)) := by
  intro T _ _ f g env₁ env₂ hflag hconv h₁ h₂
  constructor
  · rcases hflag with h | h <;>
      simp [Field.Value, Field.valueEnvDefault, h, h₁]
  · rcases hflag with h | h <;>
      simp [Field.Value, Field.valueEnvDefault, h, hconv, h₂]

theorem C9_witness :
    Field.Value fieldTwo envEmpty = Except.ok 1 ∧ Field.Value fieldTwo envTen = Except.ok 10 := by
  have h := C9_live_environment Int fieldTwo atoiOr0 envEmpty envTen
    (Or.inr rfl) rfl rfl (by decide)
  refine ⟨h.1, ?_⟩
  rw [h.2]
  decide

/-- C10: with a pointer destination, a completed (non-panicking) call of
`ApplyValues` always returns a nil error: the non-pointer-destination error is
the only non-nil error value the operation can return; every other failure
(missing field, nil value, type mismatch) is a crash, not an error result. -/
theorem C10_pointer_no_recoverable_error :
    ∀ (env : GoEnv) (config : GoArg) (metaConfig : MNode)
      (e : Option String) (d : List (String × GoVal)),
    config.isPointer = true →
    ApplyValues env config metaConfig = Except.ok (e, d) → e = none := by
  intro env config metaConfig e d hp h
  rw [ApplyValues, hp] at h
  simp only [Bool.true_eq_false, if_false] at h
  split at h
  · exact absurd h (by simp)
  · split at h
    · exact absurd h (by simp)
    · injection h with h₂
      exact (Prod.mk.injEq _ _ _ _ |>.mp h₂).1.symm

theorem C10_witness :
    ApplyValues envEmpty argPtr metaEmptyStruct = Except.ok (none, destExample) ∧
    (none : Option String) = none := by
  refine ⟨by simp [ApplyValues, argPtr, AllMetaFields, metaEmptyStruct, MNode.deref1,
    MNode.structKind, allMetaLoop, scanMeta, MNode.body, applyLoop, destExample], ?_⟩
  exact C10_pointer_no_recoverable_error envEmpty argPtr metaEmptyStruct none destExample rfl
    (by simp [ApplyValues, argPtr, AllMetaFields, metaEmptyStruct, MNode.deref1,
      MNode.structKind, allMetaLoop, scanMeta, MNode.body, applyLoop, destExample])

/-- C2 (counter-evidence): flattening a structure whose nested substructure
repeats the top-level key `X` does NOT panic: it completes and silently
overwrites the top-level entry with the nested value.  The nested merge's
duplicate check reads `results[name]` with `name` still `""` instead of
`results[key]`. -/
theorem C2_nested_duplicate_silent_overwrite :
    dupTop.mapFieldName = "X" ∧ dupNested.mapFieldName = "X" ∧
    ConfigFieldMap envEmpty dupExample = Except.ok [("X", GoVal.vStr "nested")] := by
  refine ⟨rfl, rfl, ?_⟩
  simp [ConfigFieldMap, cfmFields, dupExample, dupTop, dupNested, CNode.deref1, CNode.structKind,
    CNode.body, Field.Value, Field.valueEnvDefault, envEmpty, lookupKey, mapInsert, mergeNested,
    dupKeyMsg]

theorem lookupKey_head {a : Type} (k₀ : String) (v₀ : a) (rest : List (String × a)) (q : String) :
    (lookupKey ((k₀, v₀) :: rest) q).isSome = true ↔
      q = k₀ ∨ (lookupKey rest q).isSome = true := by
  by_cases hq : k₀ = q
  · subst hq
    simp [lookupKey]
  · have hqk : ¬q = k₀ := fun hh => hq hh.symm
    simp [lookupKey, hq, hqk]

theorem lookupKey_mapInsert {a : Type} (m : List (String × a)) (k : String) (v : a) (q : String) :
    (lookupKey (mapInsert m k v) q).isSome = true ↔
      q = k ∨ (lookupKey m q).isSome = true := by
  induction m with
  | nil =>
    by_cases hk : k = q
    · subst hk
      simp [mapInsert, lookupKey]
    · have hqk : ¬q = k := fun hh => hk hh.symm
      simp [mapInsert, lookupKey, hk, hqk]
  | cons p rest ih =>
    obtain ⟨k₀, v₀⟩ := p
    by_cases h₀ : k₀ = k
    · subst h₀
      have hm : mapInsert ((k₀, v₀) :: rest) k₀ v = (k₀, v) :: rest := by
        simp [mapInsert]
      rw [hm, lookupKey_head, lookupKey_head]
      tauto
    · simp only [mapInsert, if_neg h₀]
      rw [lookupKey_head, lookupKey_head, ih]
      tauto

theorem mergeNested_keys :
    ∀ (sub results m : List (String × GoVal)),
    mergeNested results sub = Except.ok m →
    ∀ q : String, (lookupKey m q).isSome = true ↔
      (lookupKey results q).isSome = true ∨ (lookupKey sub q).isSome = true := by
  intro sub
  induction sub with
  | nil =>
    intro results m h q
    simp only [mergeNested] at h
    injection h with h
    subst h
    simp [lookupKey]
  | cons p rest ih =>
    obtain ⟨k, v⟩ := p
    intro results m h q
    simp only [mergeNested] at h
    by_cases hdup : (lookupKey results "").isSome = true
    · rw [if_pos hdup] at h
      exact absurd h (by simp)
    · rw [if_neg hdup] at h
      have hrec := ih (mapInsert results k v) m h q
      rw [hrec, lookupKey_mapInsert, lookupKey_head]
      tauto

theorem keysOfFields_nil : keysOfFields [] = [] := by
  rw [keysOfFields.eq_def]

theorem keysOfFields_cons_fStr (fname : String) (f : Field String) (rest : List (String × CNode)) :
    keysOfFields ((fname, CNode.fStr f) :: rest) =
      descriptorKey fname f.mapFieldName :: keysOfFields rest := by
  rw [keysOfFields.eq_def]
  rfl

theorem keysOfFields_cons_fBool (fname : String) (f : Field Bool) (rest : List (String × CNode)) :
    keysOfFields ((fname, CNode.fBool f) :: rest) =
      descriptorKey fname f.mapFieldName :: keysOfFields rest := by
  rw [keysOfFields.eq_def]
  rfl

theorem keysOfFields_cons_fInt (fname : String) (f : Field Int) (rest : List (String × CNode)) :
    keysOfFields ((fname, CNode.fInt f) :: rest) =
      descriptorKey fname f.mapFieldName :: keysOfFields rest := by
  rw [keysOfFields.eq_def]
  rfl

theorem keysOfFields_cons_prim (fname : String) (rest : List (String × CNode)) :
    keysOfFields ((fname, CNode.prim) :: rest) = keysOfFields rest := by
  rw [keysOfFields.eq_def]
  first
  | rfl
  | simp [CNode.deref1, CNode.structKind]

theorem keysOfFields_cons_ptr_none (fname : String) (rest : List (String × CNode)) :
    keysOfFields ((fname, CNode.ptr none) :: rest) = keysOfFields rest := by
  rw [keysOfFields.eq_def]
  first
  | rfl
  | simp [CNode.deref1]

theorem keysOfFields_cons_ptr_some (fname : String) (x : CNode) (rest : List (String × CNode)) :
    keysOfFields ((fname, CNode.ptr (some x)) :: rest) =
      (if CNode.structKind x = true then discoveredKeys x else []) ++ keysOfFields rest := by
  rw [keysOfFields.eq_def]
  first
  | rfl
  | simp [CNode.deref1]

theorem keysOfFields_cons_strct (fname : String) (fs : List (String × CNode))
    (rest : List (String × CNode)) :
    keysOfFields ((fname, CNode.strct fs) :: rest) =
      discoveredKeys (CNode.strct fs) ++ keysOfFields rest := by
  rw [keysOfFields.eq_def]
  first
  | rfl
  | simp [CNode.deref1, CNode.structKind]

mutual

theorem cfm_keys (env : GoEnv) (v : CNode) (m : List (String × GoVal))
    (h : ConfigFieldMap env v = Except.ok m) (q : String) :
    ((lookupKey m q).isSome = true ↔ q ∈ discoveredKeys v) := by
  unfold ConfigFieldMap at h
  split at h
  next hval => exact absurd h (by simp)
  next val hval =>
    split at h
    next hs =>
      have hrec := cfmFields_keys env (CNode.body val) [] m h q
      unfold discoveredKeys
      rw [hval]
      simp only [hs, if_true]
      rw [hrec]
      simp [lookupKey]
    next hs => exact absurd h (by simp)
termination_by sizeOf v
decreasing_by
  simp_wf
  rename_i val hval hs
  have h₁ := CNode.cderef1_size hval
  have h₂ := CNode.struct_body_size hs
  omega

theorem cfmFields_keys (env : GoEnv) (fields : List (String × CNode))
    (results m : List (String × GoVal))
    (h : cfmFields env fields results = Except.ok m) (q : String) :
    ((lookupKey m q).isSome = true ↔
      (lookupKey results q).isSome = true ∨ q ∈ keysOfFields fields) := by
  unfold cfmFields at h
  split at h
  next =>
    injection h with h
    subst h
    simp [keysOfFields]
  next fname node rest =>
    cases node with
    | fStr f =>
      split at h
      next g heq =>
        injection heq with hfg
        subst hfg
        split at h
        next e hfv => exact absurd h (by simp)
        next value hfv =>
          first
          | dsimp only [] at h
          | skip
          have hdk : (if f.mapFieldName = "" then fname else f.mapFieldName) =
              descriptorKey fname f.mapFieldName := rfl
          rw [hdk] at h
          split at h
          next hdup => exact absurd h (by simp)
          next hdup =>
            have hrec := cfmFields_keys env rest _ m h q
            rw [hrec, lookupKey_mapInsert, keysOfFields_cons_fStr]
            simp only [List.mem_cons]
            tauto
      next g heq => exact absurd heq (by simp)
      next g heq => exact absurd heq (by simp)
      next n₂ hn₁ hn₂ hn₃ =>
        exact absurd rfl (hn₁ f)
    | fBool f =>
      split at h
      next g heq => exact absurd heq (by simp)
      next g heq =>
        injection heq with hfg
        subst hfg
        split at h
        next e hfv => exact absurd h (by simp)
        next value hfv =>
          first
          | dsimp only [] at h
          | skip
          have hdk : (if f.mapFieldName = "" then fname else f.mapFieldName) =
              descriptorKey fname f.mapFieldName := rfl
          rw [hdk] at h
          split at h
          next hdup => exact absurd h (by simp)
          next hdup =>
            have hrec := cfmFields_keys env rest _ m h q
            rw [hrec, lookupKey_mapInsert, keysOfFields_cons_fBool]
            simp only [List.mem_cons]
            tauto
      next g heq => exact absurd heq (by simp)
      next n₂ hn₁ hn₂ hn₃ =>
        exact absurd rfl (hn₂ f)
    | fInt f =>
      split at h
      next g heq => exact absurd heq (by simp)
      next g heq => exact absurd heq (by simp)
      next g heq =>
        injection heq with hfg
        subst hfg
        split at h
        next e hfv => exact absurd h (by simp)
        next value hfv =>
          first
          | dsimp only [] at h
          | skip
          have hdk : (if f.mapFieldName = "" then fname else f.mapFieldName) =
              descriptorKey fname f.mapFieldName := rfl
          rw [hdk] at h
          split at h
          next hdup => exact absurd h (by simp)
          next hdup =>
            have hrec := cfmFields_keys env rest _ m h q
            rw [hrec, lookupKey_mapInsert, keysOfFields_cons_fInt]
            simp only [List.mem_cons]
            tauto
      next n₂ hn₁ hn₂ hn₃ =>
        exact absurd rfl (hn₃ f)
    | prim =>
      simp only [CNode.deref1] at h
      rw [dif_neg (by simp [CNode.structKind])] at h
      have hrec := cfmFields_keys env rest results m h q
      rw [hrec, keysOfFields_cons_prim]
    | ptr p =>
      cases p with
      | none =>
        simp only [CNode.deref1] at h
        have hrec := cfmFields_keys env rest results m h q
        rw [hrec, keysOfFields_cons_ptr_none]
      | some x =>
        simp only [CNode.deref1] at h
        by_cases hx : CNode.structKind x = true
        · rw [dif_pos hx] at h
          split at h
          next e hcfm => exact absurd h (by simp)
          next msub hcfm =>
            split at h
            next e hmerge => exact absurd h (by simp)
            next results₂ hmerge =>
              have hrec := cfmFields_keys env rest results₂ m h q
              have hm := mergeNested_keys msub results results₂ hmerge q
              have hsk := cfm_keys env x msub hcfm q
              rw [hrec, hm, hsk, keysOfFields_cons_ptr_some]
              simp only [hx, if_true, List.mem_append]
              tauto
        · rw [dif_neg hx] at h
          have hrec := cfmFields_keys env rest results m h q
          rw [hrec, keysOfFields_cons_ptr_some]
          simp [hx]
    | strct fs =>
      simp only [CNode.deref1] at h
      rw [dif_pos (by simp [CNode.structKind])] at h
      split at h
      next e hcfm => exact absurd h (by simp)
      next msub hcfm =>
        split at h
        next e hmerge => exact absurd h (by simp)
        next results₂ hmerge =>
          have hrec := cfmFields_keys env rest results₂ m h q
          have hm := mergeNested_keys msub results results₂ hmerge q
          have hsk := cfm_keys env (CNode.strct fs) msub hcfm q
          rw [hrec, hm, hsk, keysOfFields_cons_strct]
          simp only [List.mem_append]
          tauto
termination_by sizeOf fields
decreasing_by
  all_goals simp_wf
  all_goals subst_vars
  all_goals first
  | (simp only [List.cons.sizeOf_spec, Prod.mk.sizeOf_spec, CNode.ptr.sizeOf_spec,
       Option.some.sizeOf_spec, CNode.strct.sizeOf_spec]
     omega)
  | omega

end

/-- C8: for every flattening that completes, the keys of the resulting
mapping are exactly the keys computed for the discovered descriptors: the
descriptor's `MapFieldName` when that is a non-empty string, otherwise the
structural name of the field that held it. -/
theorem C8_flatten_key_naming :
    ∀ (env : GoEnv) (v : CNode) (m : List (String × GoVal)),
    ConfigFieldMap env v = Except.ok m →
    ∀ q : String, ((lookupKey m q).isSome = true ↔ q ∈ discoveredKeys v) := by
  intro env v m h q
  exact cfm_keys env v m h q

theorem C8_witness :
    ConfigFieldMap envEmpty singleExample = Except.ok [("A", GoVal.vStr "x")] ∧
    ((lookupKey [("A", GoVal.vStr "x")] "A").isSome = true ↔ "A" ∈ discoveredKeys singleExample) := by
  have hmap : ConfigFieldMap envEmpty singleExample = Except.ok [("A", GoVal.vStr "x")] := by
    simp [ConfigFieldMap, cfmFields, singleExample, CNode.deref1, CNode.structKind,
      CNode.body, Field.Value, Field.valueEnvDefault, envEmpty, lookupKey, mapInsert]
  exact ⟨hmap, C8_flatten_key_naming envEmpty singleExample _ hmap "A"⟩

/-! ### Traversal equivalence (C5) -/

theorem recFieldsT_nil : recFieldsT [] = [] := by
  rw [recFieldsT.eq_def]

theorem recFieldsT_cons_fld (f : TField) (rest : List TNode) :
    recFieldsT (TNode.fld f :: rest) = f :: recFieldsT rest := by
  rw [recFieldsT.eq_def]
  rfl

theorem recFieldsT_cons_prim (rest : List TNode) :
    recFieldsT (TNode.prim :: rest) = recFieldsT rest := by
  rw [recFieldsT.eq_def]
  rfl

theorem recFieldsT_cons_ptr_none (rest : List TNode) :
    recFieldsT (TNode.ptr none :: rest) = recFieldsT rest := by
  rw [recFieldsT.eq_def]
  rfl

theorem recFieldsT_cons_ptr_some_struct {x : TNode} (hx : TNode.structKind x = true)
    (rest : List TNode) :
    recFieldsT (TNode.ptr (some x) :: rest) = recFieldsT (TNode.body x) ++ recFieldsT rest := by
  have hd : TNode.derefStruct (TNode.ptr (some x)) = some x := by
    simp [TNode.derefStruct, TNode.deref1, hx]
  rw [recFieldsT.eq_def]
  simp only []
  rw [hd]

theorem recFieldsT_cons_ptr_some_nonstruct {x : TNode} (hx : TNode.structKind x = false)
    (rest : List TNode) :
    recFieldsT (TNode.ptr (some x) :: rest) = recFieldsT rest := by
  have hd : TNode.derefStruct (TNode.ptr (some x)) = none := by
    simp [TNode.derefStruct, TNode.deref1, hx]
  rw [recFieldsT.eq_def]
  simp only []
  rw [hd]
  rfl

theorem recFieldsT_cons_strct (fs rest : List TNode) :
    recFieldsT (TNode.strct fs :: rest) = recFieldsT fs ++ recFieldsT rest := by
  rw [recFieldsT.eq_def]
  rfl

theorem scanT_cons_ptr_some_struct {x : TNode} (hx : TNode.structKind x = true)
    (rest : List TNode) :
    scanT (TNode.ptr (some x) :: rest) = ((scanT rest).1, x :: (scanT rest).2) := by
  simp [scanT, TNode.derefStruct, TNode.deref1, hx]

theorem scanT_cons_ptr_some_nonstruct {x : TNode} (hx : TNode.structKind x = false)
    (rest : List TNode) :
    scanT (TNode.ptr (some x) :: rest) = scanT rest := by
  simp [scanT, TNode.derefStruct, TNode.deref1, hx]

theorem perm_middle_swap {α : Type} (a b c : List α) :
    (a ++ (b ++ c)).Perm (b ++ (a ++ c)) := by
  rw [← List.append_assoc, ← List.append_assoc]
  exact List.perm_append_comm.append_right c

/-- Each level of the structure contributes the same descriptors whether the
sub-structs are recursed into inline (`recFieldsT`) or collected first and
traversed later (`scanT`): the direct hits plus the recursive contents of the
queued structs. -/
theorem scanT_perm (l : List TNode) :
    (recFieldsT l).Perm
      ((scanT l).1 ++ ((scanT l).2.map (fun s => recFieldsT (TNode.body s))).flatten) := by
  induction l with
  | nil =>
    rw [recFieldsT_nil]
    simp [scanT]
  | cons node rest ih =>
    cases node with
    | fld f =>
      rw [recFieldsT_cons_fld]
      simp only [scanT, List.cons_append]
      exact ih.cons f
    | prim =>
      rw [recFieldsT_cons_prim]
      simp only [scanT, TNode.derefStruct, TNode.deref1, TNode.structKind]
      exact ih
    | ptr p =>
      cases p with
      | none =>
        rw [recFieldsT_cons_ptr_none]
        simp only [scanT, TNode.derefStruct, TNode.deref1]
        exact ih
      | some x =>
        by_cases hx : TNode.structKind x = true
        · rw [recFieldsT_cons_ptr_some_struct hx, scanT_cons_ptr_some_struct hx]
          simp only [List.map_cons, List.flatten_cons]
          refine (ih.append_left (recFieldsT (TNode.body x))).trans ?_
          exact perm_middle_swap _ _ _
        · have hx₂ : TNode.structKind x = false := by
            cases hxx : TNode.structKind x
            · rfl
            · exact absurd hxx hx
          rw [recFieldsT_cons_ptr_some_nonstruct hx₂, scanT_cons_ptr_some_nonstruct hx₂]
          exact ih
    | strct fs =>
      rw [recFieldsT_cons_strct]
      simp only [scanT, TNode.derefStruct, TNode.deref1, TNode.structKind, List.map_cons,
        List.flatten_cons]
      refine ((ih.append_left (recFieldsT fs)).trans ?_)
      have := perm_middle_swap (recFieldsT fs) (scanT rest).1
        (((scanT rest).2.map (fun s => recFieldsT (TNode.body s))).flatten)
      simpa [TNode.body] using this

theorem stackLoopT_nil (acc : List TField) : stackLoopT [] acc = acc := by
  rw [stackLoopT.eq_def]

theorem stackLoopT_cons (val : TNode) (stack : List TNode) (acc : List TField) :
    stackLoopT (val :: stack) acc =
      stackLoopT ((scanT (TNode.body val)).2.reverse ++ stack)
        (acc ++ (scanT (TNode.body val)).1) := by
  rw [stackLoopT.eq_def]

/-- The worklist invariant: the stack loop produces, up to permutation, the
accumulator followed by the recursive contents of every struct still on the
stack. -/
theorem stackLoopT_perm : ∀ (stack : List TNode) (acc : List TField),
    (stackLoopT stack acc).Perm
      (acc ++ (stack.map (fun s => recFieldsT (TNode.body s))).flatten) := by
  intro stack acc
  cases stack with
  | nil =>
    rw [stackLoopT_nil]
    simp
  | cons val rest =>
    rw [stackLoopT_cons]
    have ih := stackLoopT_perm ((scanT (TNode.body val)).2.reverse ++ rest)
      (acc ++ (scanT (TNode.body val)).1)
    refine ih.trans ?_
    rw [List.map_append, List.flatten_append, List.map_cons, List.flatten_cons,
      List.map_reverse, List.append_assoc]
    refine List.Perm.append_left acc ?_
    have hrev : (((scanT (TNode.body val)).2.map (fun s => recFieldsT (TNode.body s))).reverse.flatten).Perm
        (((scanT (TNode.body val)).2.map (fun s => recFieldsT (TNode.body s))).flatten) :=
      (List.reverse_perm _).join
    have hscan := scanT_perm (TNode.body val)
    refine (List.Perm.append_left _ (hrev.append_right _)).trans ?_
    rw [← List.append_assoc]
    exact (hscan.symm).append_right _
termination_by stack _ => sizeOf stack
decreasing_by
  simp_wf
  have h₁ := scanT_push_size (TNode.body head)
  have h₂ := TNode.tbody_size_le head
  have h₃ := sizeOf_list_append ((scanT (TNode.body head)).2.reverse) tail
  have h₄ := sizeOf_list_reverse ((scanT (TNode.body head)).2)
  first
  | (simp only [List.cons.sizeOf_spec]
     omega)
  | omega

/-- C5: over every structure, the explicit-stack traversal and the recursive
traversal discover the same multiset of descriptors (and panic identically on
non-struct roots); on the nine-descriptor test structure both discover all
nine. -/
theorem C5_traversal_equivalence :
    (∀ v : TNode, Except.map Multiset.ofList (getConfigFieldsStack v) =
      Except.map Multiset.ofList (getConfigFieldsRecursive v))
  ∧ Except.map List.length (getConfigFieldsStack testConfig9) = Except.ok 9
  ∧ Except.map List.length (getConfigFieldsRecursive testConfig9) = Except.ok 9 := by
  refine ⟨?_, ?_, ?_⟩
  · intro v
    unfold getConfigFieldsStack getConfigFieldsRecursive
    cases hd : TNode.deref1 v with
    | none => rfl
    | some val =>
      by_cases hs : TNode.structKind val = true
      · simp only [hs, if_true, Except.map]
        have hperm : (stackLoopT [val] []).Perm (recFieldsT (TNode.body val)) := by
          refine (stackLoopT_perm [val] []).trans ?_
          simp
        exact congrArg Except.ok (Multiset.coe_eq_coe.mpr hperm)
      · simp [hs]
  · simp [getConfigFieldsStack, stackLoopT, scanT, testConfig9, TNode.deref1, TNode.structKind,
      TNode.body, TNode.derefStruct, Except.map]
  · simp [getConfigFieldsRecursive, recFieldsT, testConfig9, TNode.deref1, TNode.structKind,
      TNode.body, TNode.derefStruct, Except.map]

end Configkit
